/-
Verification of the titletoimagebot submission pipeline (titletoimagebot.py).

The definitions below are a shallow embedding of the Python source:
pure string/layout code becomes Lean functions over `String`/`List Char`,
the sqlite-backed `Database` class becomes explicit state passing over a
`DB` record, and the imgur/reddit side effects of `_process_submission`
are abstracted into an `Env` of attempt outcomes together with an action
trace.  Python text measurement (`font.getsize(line)[0]`) is injected as
an arbitrary function `m : String → Nat`, exactly as wide as the code
uses it.
-/
import Mathlib

/-! ### Constants of class RedditImage -/

/-- `RedditImage.margin = 10`. -/
def margin : Nat := 10

/-- `RedditImage.min_size = 500`. -/
def min_size : Nat := 500

/-! ### RedditImage.__init__ upscale logic

`image.size` is the tuple `(width, height)`; the guard
`image.size < (self.min_size, self.min_size)` is Python tuple comparison,
which is lexicographic. -/

/-- Python tuple comparison `(a1, a2) < (b1, b2)` (lexicographic). -/
def pyTupleLt (a b : Nat × Nat) : Bool :=
  decide (a.1 < b.1 ∨ (a.1 = b.1 ∧ a.2 < b.2))

/-- The dimension/upscale computation of `RedditImage.__init__`: returns the
resulting `(width, height)` and the `upscaled` flag.  Real division is
modelled exactly over `ℚ` (the Python code uses floats; the claims settled
here only exercise the non-upscaling branch, where no division happens). -/
def upscaleDims (size : Nat × Nat) : (Nat × Nat) × Bool :=
  let w := size.1
  let h := size.2
  if pyTupleLt size (min_size, min_size) then
    let factor : ℚ := if w < h then (min_size : ℚ) / (w : ℚ) else (min_size : ℚ) / (h : ℚ)
    ((⌈(w : ℚ) * factor⌉.toNat, ⌈(h : ℚ) * factor⌉.toNat), true)
  else (size, false)

/-! ### RedditImage._wrap_title -/

/-- Python `' '.join(ws)`. -/
def joinWords : List String → String
  | [] => ""
  | [w] => w
  | w :: ws => w ++ " " ++ joinWords ws

/-- Python slice `s[:-n]` (for `n = 0`, Python gives `s[:0] = ''`). -/
def pySliceDropRight (s : String) (n : Nat) : String :=
  if n = 0 then String.mk [] else String.mk (s.data.take (s.data.length - n))

/-- Strip leading and trailing whitespace from a character list. -/
def trimChars (cs : List Char) : List Char :=
  ((cs.dropWhile Char.isWhitespace).reverse.dropWhile Char.isWhitespace).reverse

/-- Python `s.strip()`. -/
def pyStrip (s : String) : String := String.mk (trimChars s.data)

/-- One iteration of the loop of `RedditImage._wrap_title`.  The state is
`(lines, line_words)`: `lines` mirrors the Python list `lines` (whose last
element is always `' '.join(line_words)`), `line_words` mirrors the word
accumulator.  The branch mirrors
`lines[-1] = lines[-1][:-len(word)].strip(); lines.append(word)`. -/
def wrapStep (m : String → Nat) (w : Nat) (st : List String × List String)
    (word : String) : List String × List String :=
  let lw := st.2 ++ [word]
  let cur := joinWords lw
  let lines := st.1.dropLast ++ [cur]
  if w < m cur + margin then
    (lines.dropLast ++ [pyStrip (pySliceDropRight cur word.length), word], [word])
  else
    (lines, lw)

/-- The body of `RedditImage._wrap_title` acting on an already-split word
list (`words = title.split()`), including the final
`[line for line in lines if line]`. -/
def wrapWords (m : String → Nat) (w : Nat) (words : List String) : List String :=
  ((words.foldl (wrapStep m w) ([""], [])).1).filter (fun l => l != "")

/-- Split a character list at every character satisfying `p`; the
separators are dropped and empty runs are kept (like Python `re`-free
splitting; combined with an empty-filter below this models `str.split()`). -/
def splitOnPred (p : Char → Bool) : List Char → List (List Char)
  | [] => [[]]
  | c :: cs =>
    if p c then [] :: splitOnPred p cs
    else
      match splitOnPred p cs with
      | [] => [[c]]
      | g :: gs => (c :: g) :: gs

/-- Python `title.split()`: split on whitespace runs, no empty words. -/
def pySplit (s : String) : List String :=
  ((splitOnPred (fun c => c.isWhitespace) s.data).map (fun cs => String.mk cs)).filter
    (fun l => l != "")

/-- The words of a line, splitting on the space character and dropping
empty fragments (used to state word preservation of the greedy wrap). -/
def wordsOf (s : String) : List String :=
  ((splitOnPred (fun c => c == ' ') s.data).map (fun cs => String.mk cs)).filter
    (fun l => l != "")

/-- `RedditImage._wrap_title`. -/
def wrapTitle (m : String → Nat) (w : Nat) (title : String) : List String :=
  wrapWords m w (pySplit title)

/-! ### RedditImage._split_title -/

/-- The delimiter set `[',', ';', '.']` of `_split_title`. -/
def isDelim (c : Char) : Bool := c == ',' || c == ';' || c == '.'

/-- One iteration of the character loop of `RedditImage._split_title`.
State is `(done, cur, delim)` where the Python list `lines` is
`done ++ [cur]` (the current line is always last) and `delim` is the
`delimiter` variable. -/
def splitStep (st : List String × String × Option Char) (c : Char) :
    List String × String × Option Char :=
  match st with
  | (done, cur, delim) =>
    if c = ' ' ∧ cur = "" then (done, cur, delim)
    else
      let cur1 := cur.push c
      let delim1 := if delim = none ∧ isDelim c then some c else delim
      if delim1 = some c then (done ++ [cur1], "", delim1)
      else (done, cur1, delim1)

/-- The character scan of `_split_title`: finished lines, current line,
and the delimiter that was fixed (if any). -/
def splitRun (title : String) : List String × String × Option Char :=
  title.data.foldl splitStep ([], "", none)

/-- The Python list `lines` right after the scan of `_split_title`. -/
def splitSegLines (title : String) : List String :=
  (splitRun title).1 ++ [(splitRun title).2.1]

/-- The first character of `title` that is one of `',', ';', '.'`. -/
def firstDelim (title : String) : Option Char := title.data.find? isDelim

/-- `RedditImage._split_title`: scan, then fall back to `_wrap_title` if
any line overflows (`getsize(line)[0] + margin > self._width`), else drop
empty lines. -/
def splitTitle (m : String → Nat) (w : Nat) (title : String) : List String :=
  if (splitSegLines title).any (fun l => decide (w < m l + margin)) then wrapTitle m w title
  else (splitSegLines title).filter (fun l => l != "")

/-! ### The resolution regex of add_title

`regex_resolution = r'\s?\[[0-9]+\s?[xX*×]\s?[0-9]+\]'`, used as
`regex_resolution.sub('', title)`.  The pattern is deterministic (no token
can match a character the next token accepts), so it is modelled by a
direct matcher.  `\s` is modelled by `Char.isWhitespace`. -/

/-- `[xX*×]`. -/
def isSepChar (c : Char) : Bool := c == 'x' || c == 'X' || c == '*' || c == '×'

/-- Consume a maximal digit run, returning its length and the rest. -/
def spanDigits : List Char → Nat × List Char
  | [] => (0, [])
  | c :: cs =>
    if c.isDigit then
      let r := spanDigits cs
      (r.1 + 1, r.2)
    else (0, c :: cs)

/-- `\s?`: drop at most one whitespace character. -/
def dropOneWs : List Char → List Char
  | [] => []
  | c :: cs => if c.isWhitespace then cs else c :: cs

/-- Match `\[[0-9]+\s?[xX*×]\s?[0-9]+\]` at the head, returning the rest. -/
def matchResBody (cs : List Char) : Option (List Char) :=
  match cs with
  | '[' :: cs1 =>
    match spanDigits cs1 with
    | (0, _) => none
    | (_ + 1, cs2) =>
      match dropOneWs cs2 with
      | [] => none
      | s :: cs4 =>
        if isSepChar s then
          match spanDigits (dropOneWs cs4) with
          | (0, _) => none
          | (_ + 1, cs6) =>
            match cs6 with
            | ']' :: cs7 => some cs7
            | _ => none
        else none
  | _ => none

/-- Match the whole pattern `\s?\[...\]` at the head. -/
def matchRes (cs : List Char) : Option (List Char) :=
  match cs with
  | [] => none
  | c :: cs' => if c.isWhitespace then matchResBody cs' else matchResBody cs

/-- Left-to-right non-overlapping substitution by the empty string, i.e.
`re.sub(pattern, '', ...)`.  Fuel-indexed: every match consumes at least
one character, so fuel `cs.length` is always sufficient. -/
def stripResList : Nat → List Char → List Char
  | 0, _ => []
  | _, [] => []
  | fuel + 1, c :: cs =>
    match matchRes (c :: cs) with
    | some rest => stripResList fuel rest
    | none => c :: stripResList fuel cs

/-- `RedditImage.regex_resolution.sub('', title)`. -/
def stripResolution (s : String) : String :=
  String.mk (stripResList s.data.length s.data)

/-! ### The Database class (sqlite tables `messages` and `submissions`) -/

/-- A row of the `messages` table. -/
structure MessageRec where
  id : String
  author : String
  subject : String
  body : String
deriving DecidableEq

/-- A row of the `submissions` table (`retry INT DEFAULT 0` as `Bool`). -/
structure SubmissionRec where
  id : String
  author : String
  title : String
  url : String
  imgur_url : Option String
  retry : Bool
deriving DecidableEq

/-- The durable store: the two sqlite tables. -/
structure DB where
  messages : List MessageRec
  submissions : List SubmissionRec
deriving DecidableEq

/-- The `TypeError` raised by `Database.submission_set_retry`. -/
inductive PyError
  | typeError
deriving DecidableEq

/-- `Database.message_exists`. -/
def message_exists (db : DB) (mid : String) : Bool :=
  db.messages.any (fun mr => mr.id == mid)

/-- `Database.submission_select`. -/
def submission_select (db : DB) (sid : String) : Option SubmissionRec :=
  db.submissions.find? (fun r => r.id == sid)

/-- `Database.submission_insert` (`imgur_url` NULL, `retry` default 0). -/
def submission_insert (db : DB) (sid author title url : String) : DB :=
  { db with submissions := db.submissions ++ [⟨sid, author, title, url, none, false⟩] }

/-- `Database.submission_set_retry`: set the retry flag, and if
`delete_message` is set, delete the message row — raising `TypeError`
when no message was supplied.  The raise escapes before `commit()`, so
the error case leaves the durable state unchanged. -/
def submission_set_retry (db : DB) (sid : String) (delete_message : Bool)
    (message : Option MessageRec) : Except PyError DB :=
  let subs := db.submissions.map (fun r => if r.id = sid then { r with retry := true } else r)
  if delete_message then
    match message with
    | none => .error .typeError
    | some msg =>
      .ok { messages := db.messages.filter (fun mr => mr.id != msg.id), submissions := subs }
  else .ok { db with submissions := subs }

/-- `Database.submission_clear_retry`. -/
def submission_clear_retry (db : DB) (sid : String) : DB :=
  { db with submissions :=
      db.submissions.map (fun r => if r.id = sid then { r with retry := false } else r) }

/-- `Database.submission_set_imgur_url`. -/
def submission_set_imgur_url (db : DB) (sid url : String) : DB :=
  { db with submissions :=
      db.submissions.map (fun r => if r.id = sid then { r with imgur_url := some url } else r) }

/-! ### RedditImage.upload -/

/-- Outcome of one `imgur.upload_from_path` call: success with a link,
`ImgurClientError`, or `ImgurClientRateLimitError` (a distinct class,
not caught by the `except ImgurClientError` handlers). -/
inductive UploadResult
  | success (link : String)
  | clientError
  | rateLimitError
deriving DecidableEq

/-- The two temporary files `temp.png` and `temp.jpg` (present or not). -/
structure FileSys where
  png : Bool
  jpg : Bool
deriving DecidableEq

/-- State after `self._image.save(path_png); self._image.save(path_jpg)`. -/
def fsSaved : FileSys := { png := true, jpg := true }

/-- The `finally: remove(path_png); remove(path_jpg)` clause. -/
def fsRemoveBoth (fs : FileSys) : FileSys := { fs with png := false, jpg := false }

/-- `RedditImage.upload`, as a function of the outcomes of the png and jpg
upload attempts.  Returns the call result (`.error ()` models the
propagating `ImgurClientRateLimitError`, `.ok none` the definitive
failure `return None`), the final file-system state, and whether the jpg
attempt was made.  The `finally` clause runs on every exit path, so every
branch ends in `fsRemoveBoth fsSaved`. -/
def uploadModel (first second : UploadResult) :
    Except Unit (Option String) × FileSys × Bool :=
  match first with
  | .success link => (.ok (some link), fsRemoveBoth fsSaved, false)
  | .rateLimitError => (.error (), fsRemoveBoth fsSaved, false)
  | .clientError =>
    match second with
    | .success link => (.ok (some link), fsRemoveBoth fsSaved, true)
    | .clientError => (.ok none, fsRemoveBoth fsSaved, true)
    | .rateLimitError => (.error (), fsRemoveBoth fsSaved, true)

/-! ### The reply template of TitleToImageBot -/

/-- `self._template.format(...)` as called by `_reply_imgur_url`: the
template string of `TitleToImageBot.__init__` with `image_url`,
`upscaled` (note the leading space in `' (image was upscaled)\n\n'`) and
`submission_id` substituted. -/
def renderReply (image_url : String) (upscaled : Bool) (submission_id : String) : String :=
  "[Image with added title](" ++ image_url ++ ")\n\n" ++
  (if upscaled then " (image was upscaled)\n\n" else "") ++
  "---\n\nsummon me with /u/titletoimagebot | " ++
  "[feedback](https://reddit.com/message/compose/?to=TitleToImageBot&subject=feedback%20" ++
  submission_id ++ ") | [source](https://github.com/gerenook/titletoimagebot)"

/-- Modelled from the spec: the reply template as the specification
renders it, with the `upscaled` placeholder expanding to exactly
`"(image was upscaled)\n\n"` (no leading space) or the empty string. -/
def specRenderReply (image_url : String) (upscaled : Bool) (submission_id : String) : String :=
  "[Image with added title](" ++ image_url ++ ")\n\n" ++
  (if upscaled then "(image was upscaled)\n\n" else "") ++
  "---\n\nsummon me with /u/titletoimagebot | " ++
  "[feedback](https://reddit.com/message/compose/?to=TitleToImageBot&subject=feedback%20" ++
  submission_id ++ ") | [source](https://github.com/gerenook/titletoimagebot)"

/-- Modelled from the spec, amended: identical to `specRenderReply`
except that the upscaled expansion carries the leading space the code
actually produces. -/
def specRenderReplyAmended (image_url : String) (upscaled : Bool)
    (submission_id : String) : String :=
  "[Image with added title](" ++ image_url ++ ")\n\n" ++
  (if upscaled then " (image was upscaled)\n\n" else "") ++
  "---\n\nsummon me with /u/titletoimagebot | " ++
  "[feedback](https://reddit.com/message/compose/?to=TitleToImageBot&subject=feedback%20" ++
  submission_id ++ ") | [source](https://github.com/gerenook/titletoimagebot)"

/-! ### TitleToImageBot._process_submission -/

/-- The fields of a reddit submission used by `_process_submission`
(`author` is `None` for deleted accounts). -/
structure Submission where
  id : String
  author : Option String
  title : String
  url : String
  subreddit : String
  score : Int
deriving DecidableEq

/-- Outcome of the reply attempt in `_reply_imgur_url`: success,
`praw.exceptions.APIException`, or any other exception. -/
inductive ReplyOutcome
  | success
  | apiError
  | otherError
deriving DecidableEq

/-- The external world of one `_process_submission` run: the text
measurement, the downloaded image's size, whether `Image.open` succeeds
on the url and on `url + '.jpg'`, the two imgur attempt outcomes, and the
reply outcome. -/
structure Env where
  measure : String → Nat
  imageSize : Nat × Nat
  decodeFirst : Bool
  decodeSecond : Bool
  uploadFirst : UploadResult
  uploadSecond : UploadResult
  replyOutcome : ReplyOutcome

/-- The externally visible pipeline calls of one run, in order. -/
inductive BotAction
  | insertSub
  | layout (lines : List String)
  | compose
  | upload
  | reply (text : String)
deriving DecidableEq

/-- Python `str.endswith(suffix)`. -/
def pyEndsWith (s suf : String) : Bool := suf.data.isSuffixOf s.data

/-- Whether `needle` occurs as a contiguous run inside `hay`. -/
def seqStartsWith : List Char → List Char → Bool
  | [], _ => true
  | _ :: _, [] => false
  | a :: as, b :: bs => a == b && seqStartsWith as bs

/-- Python `needle in hay` on strings (substring containment). -/
def seqContains (needle : List Char) : List Char → Bool
  | [] => needle.isEmpty
  | b :: bs => seqStartsWith needle (b :: bs) || seqContains needle bs

/-- The r/boottoobig admission check
`any(t in title.lower() for t in [',', ';', 'roses'])`. -/
def hasRhymeTrigger (title : String) : Bool :=
  let l := title.toLower
  seqContains ",".data l.data || seqContains ";".data l.data ||
    seqContains "roses".data l.data

/-- The reply step: `_reply_imgur_url` plus the caller's
return-on-failure.  On success the retry flag is cleared; on
`APIException` the retry flag is set (forgetting the source comment's
message row if one triggered the run); any other error skips silently. -/
def replyPhase (env : Env) (db : DB) (subm : Submission) (comment : Option MessageRec)
    (url : String) (upscaled : Bool) (acts : List BotAction) :
    Except PyError (DB × List BotAction) :=
  let text := renderReply url upscaled subm.id
  let acts1 := acts ++ [BotAction.reply text]
  match env.replyOutcome with
  | .success => .ok (submission_clear_retry db subm.id, acts1)
  | .apiError =>
    match submission_set_retry db subm.id comment.isSome comment with
    | .ok db1 => .ok (db1, acts1)
    | .error e => .error e
  | .otherError => .ok (db, acts1)

/-- The upload step of `_process_submission`: call `RedditImage.upload`;
on `ImgurClientRateLimitError` set the retry flag and return; on `None`
return; otherwise persist the imgur url and go on to the reply step. -/
def uploadPhase (env : Env) (db : DB) (subm : Submission) (comment : Option MessageRec)
    (upscaled : Bool) (acts : List BotAction) : Except PyError (DB × List BotAction) :=
  let acts1 := acts ++ [BotAction.upload]
  match (uploadModel env.uploadFirst env.uploadSecond).1 with
  | .error _ =>
    match submission_set_retry db subm.id comment.isSome comment with
    | .ok db1 => .ok (db1, acts1)
    | .error e => .error e
  | .ok none => .ok (db, acts1)
  | .ok (some link) =>
    replyPhase env (submission_set_imgur_url db subm.id link) subm comment link upscaled acts1

/-- The tail of `_process_submission` after the ledger check: the
r/boottoobig rhyme gate, the animated-gif gate, the image download with
`.jpg` retry, then `RedditImage` construction and `add_title` (layout and
composition, recorded in the trace), then the upload step. -/
def processRest (env : Env) (db : DB) (subm : Submission) (comment : Option MessageRec)
    (ctitle : Option String) (acts : List BotAction) : Except PyError (DB × List BotAction) :=
  let boot := subm.subreddit = "boottoobig"
  if boot ∧ comment = none ∧ hasRhymeTrigger subm.title = false then .ok (db, acts)
  else if pyEndsWith subm.url ".gif" ∨ pyEndsWith subm.url ".gifv" then .ok (db, acts)
  else if env.decodeFirst = false ∧ env.decodeSecond = false then .ok (db, acts)
  else
    let sized := upscaleDims env.imageSize
    let stripped := stripResolution (ctitle.getD subm.title)
    let lines :=
      if boot then splitTitle env.measure sized.1.1 stripped
      else wrapTitle env.measure sized.1.1 stripped
    uploadPhase env db subm comment sized.2 (acts ++ [BotAction.layout lines, BotAction.compose])

/-- `TitleToImageBot._process_submission`, as a state transformer on the
ledger together with the trace of pipeline calls it makes.  `comment` is
`source_comment` (the triggering mention, if any), `ctitle` the custom
title override. -/
def processSubmission (env : Env) (db : DB) (subm : Submission)
    (comment : Option MessageRec) (ctitle : Option String) :
    Except PyError (DB × List BotAction) :=
  match subm.author with
  | none => .ok (db, [])
  | some author =>
    if subm.subreddit = "fakehistoryporn" ∧ comment = none ∧ subm.score < 500 then
      .ok (db, [])
    else
      match submission_select db subm.id with
      | some r =>
        if r.retry || comment.isSome then processRest env db subm comment ctitle []
        else .ok (db, [])
      | none =>
        processRest env (submission_insert db subm.id author subm.title subm.url)
          subm comment ctitle [BotAction.insertSub]

/-! ### Predicates used by the layout proofs -/

/-- A word produced by Python `str.split()`: nonempty and free of
whitespace. -/
def goodWord (x : String) : Prop :=
  x ≠ "" ∧ ∀ c ∈ x.data, c.isWhitespace = false

/-- The invariant of a finished or current chunk of the greedy wrap:
empty, a single word, or within the width budget. -/
def chunkOK (m : String → Nat) (w : Nat) (g : List String) : Prop :=
  g = [] ∨ (∃ x, g = [x]) ∨ m (joinWords g) + margin ≤ w

/-! ### Small string facts -/

theorem strData_append (a b : String) : (a ++ b).data = a.data ++ b.data := rfl

theorem strData_push (s : String) (c : Char) : (s.push c).data = s.data ++ [c] := rfl

theorem strMk_data (s : String) : String.mk s.data = s := rfl

theorem strNe_empty_iff (s : String) : s ≠ "" ↔ s.data ≠ [] := by
  constructor
  · intro h hd
    exact h (show s = "" from by cases s with | mk d => cases hd; rfl)
  · intro h hd
    exact h (hd ▸ rfl)

/-! ### Claim C1 — the upscale guard of RedditImage.__init__ -/

/-- Claim C1 (code bug evaluation): the guard
`image.size < (self.min_size, self.min_size)` compares the size tuple
lexicographically, so a 600×100 image — whose height is far below the
500 minimum — is left unchanged and reported as not upscaled, while the
claim (and the spec) require upscaling whenever either dimension is below
500. -/
theorem upscale_tuple_compare_misses_flat_image :
    upscaleDims (600, 100) = ((600, 100), false) ∧ 100 < min_size := by
  constructor
  · rfl
  · decide

/-! ### Claim C8 — cleanup of the temporary files on every exit path -/

/-- Claim C8: whatever the outcomes of the two upload attempts (first
success, fallback success, exhausted fallback, or a propagating
rate-limit error), `RedditImage.upload` ends with both `temp.png` and
`temp.jpg` removed, because the removals sit in a `finally` clause. -/
theorem upload_cleanup_all_paths (first second : UploadResult) :
    ((uploadModel first second).2.1).png = false ∧
      ((uploadModel first second).2.1).jpg = false := by
  cases first <;> cases second <;> simp [uploadModel, fsRemoveBoth, fsSaved]

/-! ### Claim C9 — submission_set_retry contract -/

/-- Claim C9: `Database.submission_set_retry` with `delete_message=True`
raises `TypeError` when no message is supplied (contract violation, not
caught); when a message is supplied, the submission's retry flag is set
and the message row is deleted, so `message_exists` for that trigger id
afterwards reports it as new. -/
theorem set_retry_contract_and_dedup_forget (db : DB) (sid : String) (msg : MessageRec) :
    submission_set_retry db sid true none = .error .typeError ∧
    ∃ db', submission_set_retry db sid true (some msg) = .ok db' ∧
      message_exists db' msg.id = false ∧
      ∀ r ∈ db'.submissions, r.id = sid → r.retry = true := by
  refine ⟨rfl, _, rfl, ?_, ?_⟩
  · rw [Bool.eq_false_iff]
    intro hany
    rw [message_exists, List.any_eq_true] at hany
    obtain ⟨x, hx, he⟩ := hany
    rw [beq_iff_eq] at he
    rw [List.mem_filter] at hx
    exact bne_iff_ne.mp hx.2 he
  · intro r hr hid
    simp only [submission_set_retry, List.mem_map] at hr
    obtain ⟨r0, _, rfl⟩ := hr
    by_cases h : r0.id = sid
    · simp [h]
    · simp only [if_neg h] at hid ⊢
      exact absurd hid h

/-- Witness for C9 at a concrete store. -/
theorem set_retry_contract_and_dedup_forget_witness :
    submission_set_retry ⟨[⟨"m1", "a", "s", "b"⟩], [⟨"s1", "a", "t", "u", none, false⟩]⟩
        "s1" true none = .error .typeError ∧
    ∃ db', submission_set_retry ⟨[⟨"m1", "a", "s", "b"⟩], [⟨"s1", "a", "t", "u", none, false⟩]⟩
        "s1" true (some ⟨"m1", "a", "s", "b"⟩) = .ok db' ∧
      message_exists db' "m1" = false ∧
      ∀ r ∈ db'.submissions, r.id = "s1" → r.retry = true :=
  set_retry_contract_and_dedup_forget
    ⟨[⟨"m1", "a", "s", "b"⟩], [⟨"s1", "a", "t", "u", none, false⟩]⟩ "s1" ⟨"m1", "a", "s", "b"⟩

/-! ### Claim C5 — the DELIMITED-to-WRAPPED fallback law -/

/-- Claim C5: if the delimiter scan of `_split_title` produced any line
whose measured width plus the margin exceeds the width budget, the
method returns exactly `_wrap_title` applied to the same title. -/
theorem split_title_fallback_law (m : String → Nat) (w : Nat) (title : String)
    (h : ∃ l ∈ splitSegLines title, w < m l + margin) :
    splitTitle m w title = wrapTitle m w title := by
  unfold splitTitle
  rw [if_pos]
  rw [List.any_eq_true]
  obtain ⟨l, hl, hlt⟩ := h
  exact ⟨l, hl, decide_eq_true hlt⟩

/-- Witness for C5: with measurement `String.length` and width budget 0
every line overflows, so the fallback fires. -/
theorem split_title_fallback_law_witness :
    splitTitle String.length 0 "ab" = wrapTitle String.length 0 "ab" :=
  split_title_fallback_law String.length 0 "ab" ⟨"ab", by decide, by decide⟩

/-! ### Claim C7 — the reply template -/

/-- Counterexample to claim C7 as stated: the code's upscaled expansion
is `' (image was upscaled)\n\n'` with a leading space, so the rendered
reply differs from the spec's verbatim template on any upscaled image. -/
theorem reply_upscaled_space_counterexample :
    renderReply "u" true "s" ≠ specRenderReply "u" true "s" := by decide

/-- Claim C7 amended: the reply renders the template verbatim with the
`upscaled` placeholder expanding to `" (image was upscaled)\n\n"` — with
a leading space — when the image was upscaled, and to the empty string
otherwise. -/
theorem reply_template_renders_amended (url sid : String) (b : Bool) :
    renderReply url b sid = specRenderReplyAmended url b sid := by
  cases b <;> rfl

/-! ### Claims C2 and C3 — the orchestrator -/

/-- Helper: whenever `submission_set_retry` returns normally, the stored
retry flag of the targeted submission is set. -/
theorem setRetry_ok_sets_retry {db : DB} {sid : String} {dm : Bool}
    {msg : Option MessageRec} {db' : DB}
    (h : submission_set_retry db sid dm msg = .ok db') :
    ∀ r ∈ db'.submissions, r.id = sid → r.retry = true := by
  have hsubs : db'.submissions =
      db.submissions.map (fun r => if r.id = sid then { r with retry := true } else r) := by
    unfold submission_set_retry at h
    cases dm
    · simp only [Bool.false_eq_true, if_false, Except.ok.injEq] at h
      rw [← h]
    · cases msg
      · simp at h
      · simp only [if_true, Except.ok.injEq] at h
        rw [← h]
  intro r hr hid
  rw [hsubs] at hr
  obtain ⟨r0, _, rfl⟩ := List.mem_map.mp hr
  by_cases hc : r0.id = sid
  · simp [hc]
  · simp only [if_neg hc] at hid ⊢
    exact absurd hid hc

/-- Claim C2: in `RedditImage.upload`, a generic `ImgurClientError` on
the png attempt leads to the jpg attempt, and `None` (definitive
failure) is returned only after both attempts failed generically; an
`ImgurClientRateLimitError` on the png attempt skips the jpg attempt and
propagates, and `_process_submission` then sets the durable retry flag
for the submission instead of abandoning it. -/
theorem upload_fallback_and_ratelimit (first second : UploadResult) (env : Env)
    (db : DB) (subm : Submission) (comment : Option MessageRec) (upscaled : Bool)
    (acts : List BotAction) :
    (first = .clientError → (uploadModel first second).2.2 = true) ∧
    ((uploadModel first second).1 = .ok none → first = .clientError ∧ second = .clientError) ∧
    (first = .rateLimitError →
      (uploadModel first second).1 = .error () ∧ (uploadModel first second).2.2 = false) ∧
    (env.uploadFirst = .rateLimitError →
      ∃ db', uploadPhase env db subm comment upscaled acts =
          .ok (db', acts ++ [BotAction.upload]) ∧
        ∀ r ∈ db'.submissions, r.id = subm.id → r.retry = true) := by
  refine ⟨?_, ?_, ?_, ?_⟩
  · rintro rfl
    cases second <;> rfl
  · intro h
    cases first <;> cases second <;> simp_all [uploadModel]
  · rintro rfl
    cases second <;> exact ⟨rfl, rfl⟩
  · intro h
    cases hsr : submission_set_retry db subm.id comment.isSome comment with
    | error e =>
      exfalso
      rcases comment with _ | m <;> simp [submission_set_retry] at hsr
    | ok db1 =>
      refine ⟨db1, ?_, setRetry_ok_sets_retry hsr⟩
      unfold uploadPhase
      rw [h]
      simp only [uploadModel, hsr]

/-- Witness for C2 at concrete outcomes: png attempt rate-limited. -/
theorem upload_fallback_and_ratelimit_witness :
    ((uploadModel .clientError .clientError).2.2 = true) ∧
    (UploadResult.clientError = .clientError ∧ UploadResult.clientError = .clientError) ∧
    ((uploadModel .rateLimitError (.success "L")).1 = .error () ∧
      (uploadModel .rateLimitError (.success "L")).2.2 = false) ∧
    (∃ db', uploadPhase ⟨fun _ => 0, (600, 600), true, true, .rateLimitError, .success "L", .success⟩
        ⟨[], [⟨"s1", "a", "t", "u", none, false⟩]⟩
        ⟨"s1", some "a", "t", "u", "pics", 1⟩ none false [] = .ok (db', [BotAction.upload]) ∧
      ∀ r ∈ db'.submissions, r.id = "s1" → r.retry = true) := by
  have h := upload_fallback_and_ratelimit .rateLimitError (.success "L")
    ⟨fun _ => 0, (600, 600), true, true, .rateLimitError, .success "L", .success⟩
    ⟨[], [⟨"s1", "a", "t", "u", none, false⟩]⟩
    ⟨"s1", some "a", "t", "u", "pics", 1⟩ none false []
  have h2 := upload_fallback_and_ratelimit .clientError .clientError
    ⟨fun _ => 0, (600, 600), true, true, .rateLimitError, .success "L", .success⟩
    ⟨[], [⟨"s1", "a", "t", "u", none, false⟩]⟩
    ⟨"s1", some "a", "t", "u", "pics", 1⟩ none false []
  exact ⟨h2.1 rfl, h2.2.1 rfl, h.2.2.1 rfl, h.2.2.2 rfl⟩

/-- Claim C3: a submission already recorded in the ledger with the retry
flag clear, processed again with no triggering comment, is skipped right
after the ledger query — no layout, composition, upload, reply or insert
happens and the store is unchanged. -/
theorem process_skip_idempotent (env : Env) (db : DB) (subm : Submission)
    (ctitle : Option String) (r : SubmissionRec)
    (h1 : submission_select db subm.id = some r) (h2 : r.retry = false) :
    processSubmission env db subm none ctitle = .ok (db, []) := by
  unfold processSubmission
  cases ha : subm.author with
  | none => rfl
  | some a =>
    split
    · rfl
    · rw [h1]
      simp [h2]

/-- Witness for C3 at a concrete ledger state. -/
theorem process_skip_idempotent_witness :
    processSubmission ⟨fun _ => 0, (600, 600), true, true, .success "L", .success "L", .success⟩
      ⟨[], [⟨"s1", "a", "t", "u", none, false⟩]⟩
      ⟨"s1", some "a", "t", "u", "pics", 1⟩ none none =
      .ok (⟨[], [⟨"s1", "a", "t", "u", none, false⟩]⟩, []) :=
  process_skip_idempotent _ _ _ none ⟨"s1", "a", "t", "u", none, false⟩ (by decide) rfl

/-! ### Claim C4 — the first-delimiter law of _split_title -/

/-- Phase 2 of the `_split_title` scan: once the delimiter is fixed to
`d`, every finished line ends in `d` and contains `d` nowhere else, and
the current line never contains `d`. -/
theorem split_phase2 (d : Char) :
    ∀ (cs : List Char) (done : List String) (cur : String),
    (∀ l ∈ done, l.data.getLast? = some d ∧ d ∉ l.data.dropLast) → d ∉ cur.data →
    ((cs.foldl splitStep (done, cur, some d)).2.2 = some d ∧
     (∀ l ∈ (cs.foldl splitStep (done, cur, some d)).1,
        l.data.getLast? = some d ∧ d ∉ l.data.dropLast) ∧
     d ∉ ((cs.foldl splitStep (done, cur, some d)).2.1).data) := by
  intro cs
  induction cs with
  | nil =>
    intro done cur hdone hcur
    exact ⟨rfl, hdone, hcur⟩
  | cons c cs ih =>
    intro done cur hdone hcur
    rw [List.foldl_cons]
    by_cases hsp : c = ' ' ∧ cur = ""
    · rw [show splitStep (done, cur, some d) c = (done, cur, some d) from by
        simp [splitStep, hsp]]
      exact ih done cur hdone hcur
    · by_cases hcd : d = c
      · subst hcd
        rw [show splitStep (done, cur, some d) d = (done ++ [cur.push d], "", some d) from by
          simp [splitStep, hsp]]
        apply ih
        · intro l hl
          rcases List.mem_append.mp hl with h | h
          · exact hdone l h
          · rw [List.mem_singleton] at h
            subst h
            refine ⟨?_, ?_⟩
            · rw [strData_push]
              exact List.getLast?_concat ..
            · rw [strData_push, List.dropLast_concat]
              exact hcur
        · simp
      · rw [show splitStep (done, cur, some d) c = (done, cur.push c, some d) from by
          simp [splitStep, hsp, hcd]]
        apply ih done (cur.push c) hdone
        rw [strData_push]
        intro hm
        rcases List.mem_append.mp hm with h | h
        · exact hcur h
        · rw [List.mem_singleton] at h
          exact hcd h

/-- Phase 1 of the `_split_title` scan: before any delimiter is seen no
line is finished; the first delimiter character of the input becomes the
fixed delimiter and the phase-2 invariants hold from there on. -/
theorem split_phase1 (d : Char) :
    ∀ (cs : List Char) (cur : String),
    (∀ c ∈ cur.data, isDelim c = false) → cs.find? isDelim = some d →
    ((cs.foldl splitStep ([], cur, none)).2.2 = some d ∧
     (∀ l ∈ (cs.foldl splitStep ([], cur, none)).1,
        l.data.getLast? = some d ∧ d ∉ l.data.dropLast) ∧
     d ∉ ((cs.foldl splitStep ([], cur, none)).2.1).data) := by
  intro cs
  induction cs with
  | nil =>
    intro cur hcur hfind
    simp at hfind
  | cons c cs ih =>
    intro cur hcur hfind
    rw [List.foldl_cons]
    by_cases hdc : isDelim c = true
    · have hd : d = c := by
        rw [List.find?_cons_of_pos _ hdc] at hfind
        exact (Option.some_inj.mp hfind).symm
      subst hd
      have hcs : ¬(d = ' ' ∧ cur = "") := by
        rintro ⟨rfl, -⟩
        simp [isDelim] at hdc
      rw [show splitStep ([], cur, none) d = ([cur.push d], "", some d) from by
        simp [splitStep, hcs, hdc]]
      apply split_phase2
      · intro l hl
        rw [List.mem_singleton] at hl
        subst hl
        refine ⟨?_, ?_⟩
        · rw [strData_push]
          exact List.getLast?_concat ..
        · rw [strData_push, List.dropLast_concat]
          intro hm
          rw [hcur d hm] at hdc
          exact Bool.false_ne_true hdc
      · simp
    · have hdc' : isDelim c = false := by
        cases h : isDelim c
        · rfl
        · exact absurd h hdc
      have hfind' : cs.find? isDelim = some d := by
        rwa [List.find?_cons_of_neg _ hdc] at hfind
      by_cases hsp : c = ' ' ∧ cur = ""
      · rw [show splitStep ([], cur, none) c = ([], cur, none) from by
          simp [splitStep, hsp]]
        exact ih cur hcur hfind'
      · rw [show splitStep ([], cur, none) c = ([], cur.push c, none) from by
          simp [splitStep, hsp, hdc']]
        apply ih
        · intro x hx
          rw [strData_push] at hx
          rcases List.mem_append.mp hx with h | h
          · exact hcur x h
          · rw [List.mem_singleton] at h
            subst h
            exact hdc'
        · exact hfind'

/-- Claim C4: in `_split_title`, the delimiter is fixed as the first
character among `',', ';', '.'` of the scanned title; every finished
line ends with that delimiter and contains it nowhere earlier (so
exactly its occurrences terminate lines, and the other two delimiter
characters never do), and the trailing unfinished line does not contain
it at all. -/
theorem split_title_first_delimiter_law (title : String) (d : Char)
    (h : firstDelim title = some d) :
    (splitRun title).2.2 = some d ∧
    (∀ l ∈ (splitRun title).1, l.data.getLast? = some d ∧ d ∉ l.data.dropLast) ∧
    d ∉ ((splitRun title).2.1).data :=
  split_phase1 d title.data "" (by simp) h

/-- Witness for C4: in `"a,b;c.,d"` the comma is fixed (semicolon and
period never split). -/
theorem split_title_first_delimiter_law_witness :
    (splitRun "a,b;c.,d").2.2 = some ',' ∧
    (∀ l ∈ (splitRun "a,b;c.,d").1, l.data.getLast? = some ',' ∧ ',' ∉ l.data.dropLast) ∧
    ',' ∉ ((splitRun "a,b;c.,d").2.1).data :=
  split_title_first_delimiter_law "a,b;c.,d" ',' (by decide)

/-! ### Claims C6 and C10 — facts about splitting and joining words -/

/-- `splitOnPred` never returns the empty list of groups. -/
theorem splitOnPred_ne_nil (p : Char → Bool) (cs : List Char) : splitOnPred p cs ≠ [] := by
  induction cs with
  | nil => simp [splitOnPred]
  | cons c cs ih =>
    cases h : p c with
    | true => simp [splitOnPred, h]
    | false =>
      simp only [splitOnPred, h, Bool.false_eq_true, if_false]
      cases hh : splitOnPred p cs with
      | nil => simp
      | cons g gs => simp

/-- No character of any group returned by `splitOnPred` satisfies `p`. -/
theorem splitOnPred_chars (p : Char → Bool) (cs : List Char) :
    ∀ g ∈ splitOnPred p cs, ∀ c ∈ g, p c = false := by
  induction cs with
  | nil =>
    intro g hg c hc
    simp only [splitOnPred, List.mem_singleton] at hg
    subst hg
    cases hc
  | cons a cs ih =>
    intro g hg c hc
    cases h : p a with
    | true =>
      simp only [splitOnPred, h, if_true] at hg
      rcases List.mem_cons.mp hg with rfl | hg'
      · cases hc
      · exact ih g hg' c hc
    | false =>
      simp only [splitOnPred, h, Bool.false_eq_true, if_false] at hg
      cases hh : splitOnPred p cs with
      | nil => exact absurd hh (splitOnPred_ne_nil p cs)
      | cons g' gs' =>
        rw [hh] at hg
        simp only [List.mem_cons] at hg
        rcases hg with rfl | hg
        · rcases List.mem_cons.mp hc with rfl | hc'
          · exact h
          · exact ih g' (by rw [hh]; exact List.mem_cons_self ..) c hc'
        · exact ih g (by rw [hh]; exact List.mem_cons_of_mem _ hg) c hc

/-- A separator after a clean run splits exactly there. -/
theorem splitOnPred_append (p : Char → Bool) (s : Char) (hs : p s = true) :
    ∀ (a r : List Char), (∀ c ∈ a, p c = false) →
    splitOnPred p (a ++ s :: r) = a :: splitOnPred p r := by
  intro a
  induction a with
  | nil =>
    intro r _
    simp [splitOnPred, hs]
  | cons c a ih =>
    intro r ha
    have hc : p c = false := ha c (List.mem_cons_self ..)
    simp only [List.cons_append, splitOnPred, hc, Bool.false_eq_true, if_false, List.append_eq]
    rw [ih r (fun x hx => ha x (List.mem_cons_of_mem _ hx))]

/-- A run without separators is one group. -/
theorem splitOnPred_noSplit (p : Char → Bool) :
    ∀ (cs : List Char), (∀ c ∈ cs, p c = false) → splitOnPred p cs = [cs] := by
  intro cs
  induction cs with
  | nil => intro _; rfl
  | cons c cs ih =>
    intro h
    have hc : p c = false := h c (List.mem_cons_self ..)
    simp only [splitOnPred, hc, Bool.false_eq_true, if_false]
    rw [ih (fun x hx => h x (List.mem_cons_of_mem _ hx))]

/-- Every word of `pySplit` is nonempty and whitespace-free. -/
theorem good_pySplit (s : String) : ∀ x ∈ pySplit s, goodWord x := by
  intro x hx
  unfold pySplit at hx
  rw [List.mem_filter] at hx
  obtain ⟨hmem, hne⟩ := hx
  obtain ⟨g, hg, rfl⟩ := List.mem_map.mp hmem
  exact ⟨bne_iff_ne.mp hne, fun c hc => splitOnPred_chars _ _ g hg c hc⟩

/-- Unfolding `joinWords` on a two-or-more-element list, at `data` level. -/
theorem joinWords_cons_data (x : String) (ws : List String) (h : ws ≠ []) :
    (joinWords (x :: ws)).data = x.data ++ ' ' :: (joinWords ws).data := by
  cases ws with
  | nil => exact absurd rfl h
  | cons y ys =>
    show (x ++ " " ++ joinWords (y :: ys)).data = _
    rw [strData_append, strData_append]
    simp [List.append_assoc]

/-- `' '.join` of a snoc, at `data` level. -/
theorem joinWords_concat_data (cur : List String) (x : String) (h : cur ≠ []) :
    (joinWords (cur ++ [x])).data = (joinWords cur).data ++ ' ' :: x.data := by
  induction cur with
  | nil => exact absurd rfl h
  | cons y ys ih =>
    cases ys with
    | nil =>
      show (y ++ " " ++ joinWords [x]).data = _
      rw [show joinWords [x] = x from rfl, show joinWords [y] = y from rfl,
        strData_append, strData_append]
      simp [List.append_assoc]
    | cons z zs =>
      rw [List.cons_append, joinWords_cons_data y ((z :: zs) ++ [x]) (by simp),
        ih (by simp), joinWords_cons_data y (z :: zs) (by simp)]
      simp [List.append_assoc]

/-- A nonempty join of good words starts with a non-whitespace character
and ends with a non-whitespace character. -/
theorem joinWords_ends (g : List String) (hne : g ≠ []) (hg : ∀ x ∈ g, goodWord x) :
    ∃ c cs, (joinWords g).data = c :: cs ∧ c.isWhitespace = false ∧
      ∀ d, (c :: cs).getLast? = some d → d.isWhitespace = false := by
  induction g with
  | nil => exact absurd rfl hne
  | cons x g ih =>
    obtain ⟨hxne, hxch⟩ := hg x (List.mem_cons_self ..)
    obtain ⟨c, cs0, hx⟩ : ∃ c cs0, x.data = c :: cs0 := by
      cases hd : x.data with
      | nil => exact absurd hd ((strNe_empty_iff x).mp hxne)
      | cons c cs0 => exact ⟨c, cs0, rfl⟩
    cases g with
    | nil =>
      refine ⟨c, cs0, hx, hxch c (by rw [hx]; exact List.mem_cons_self ..), ?_⟩
      intro d hd
      apply hxch
      rw [hx]
      obtain ⟨l', hl'⟩ := List.getLast?_eq_some_iff.mp hd
      rw [hl']
      simp
    | cons y g' =>
      obtain ⟨c', cs', hJ, hc', hJlast⟩ := ih (by simp) (fun z hz => hg z (List.mem_cons_of_mem _ hz))
      refine ⟨c, cs0 ++ ' ' :: (joinWords (y :: g')).data, ?_, hxch c (by rw [hx]; exact List.mem_cons_self ..), ?_⟩
      · rw [joinWords_cons_data x (y :: g') (by simp), hx]
        rfl
      · intro d hd
        have hrw : c :: (cs0 ++ ' ' :: (joinWords (y :: g')).data) =
            (c :: cs0 ++ [' ']) ++ (joinWords (y :: g')).data := by
          simp [List.append_assoc]
        rw [hrw, List.getLast?_append] at hd
        rw [hJ] at hd
        cases hlast : (c' :: cs').getLast? with
        | none => exact absurd (List.getLast?_eq_none_iff.mp hlast) (by simp)
        | some dJ =>
          rw [hlast] at hd
          have hdd : dJ = d := Option.some_inj.mp hd
          exact hdd ▸ hJlast dJ hlast

/-- Stripping a clean run with one trailing space recovers the run. -/
theorem trim_concat_space (cs : List Char) (c : Char) (cs0 : List Char)
    (hcs : cs = c :: cs0) (hhead : c.isWhitespace = false)
    (hlast : ∀ d, cs.getLast? = some d → d.isWhitespace = false) :
    trimChars (cs ++ [' ']) = cs := by
  unfold trimChars
  have h1 : (cs ++ [' ']).dropWhile Char.isWhitespace = cs ++ [' '] := by
    rw [hcs, List.cons_append, List.dropWhile_cons, hhead]
    simp
  rw [h1]
  have h2 : (cs ++ [' ']).reverse = ' ' :: cs.reverse := by simp
  rw [h2, List.dropWhile_cons]
  rw [show (' '.isWhitespace) = true from by decide]
  simp only [if_true]
  cases hrev : cs.reverse with
  | nil =>
    rw [List.reverse_eq_nil_iff] at hrev
    rw [hcs] at hrev
    simp at hrev
  | cons d' rest =>
    have hd' : d'.isWhitespace = false := by
      apply hlast
      rw [← List.head?_reverse, hrev]
      rfl
    rw [List.dropWhile_cons, hd']
    simp only [Bool.false_eq_true, if_false]
    rw [← hrev, List.reverse_reverse]

/-- A nonempty join of good words is a nonempty string. -/
theorem joinWords_ne_empty (g : List String) (hne : g ≠ []) (hg : ∀ x ∈ g, goodWord x) :
    joinWords g ≠ "" := by
  obtain ⟨c, cs, hdata, -, -⟩ := joinWords_ends g hne hg
  rw [strNe_empty_iff, hdata]
  simp

/-- The finalization step of `_wrap_title`
(`lines[-1] = lines[-1][:-len(word)].strip()`) recovers exactly the line
without the word that overflowed. -/
theorem strip_slice (cur : List String) (x : String)
    (hcur : ∀ y ∈ cur, goodWord y) (hx : goodWord x) :
    pyStrip (pySliceDropRight (joinWords (cur ++ [x])) x.length) = joinWords cur := by
  have hxd : x.data ≠ [] := (strNe_empty_iff x).mp hx.1
  have hxlen : x.length ≠ 0 := by
    intro h0
    exact hxd (List.length_eq_zero.mp h0)
  unfold pySliceDropRight
  rw [if_neg hxlen]
  cases cur with
  | nil =>
    rw [show joinWords ([] ++ [x]) = x from rfl]
    rw [show x.length = x.data.length from rfl, Nat.sub_self, List.take_zero]
    rfl
  | cons y cur' =>
    rw [joinWords_concat_data (y :: cur') x (by simp)]
    obtain ⟨c, cs0, hdata, hhd, hlast⟩ := joinWords_ends (y :: cur') (by simp) hcur
    have hlen : ((joinWords (y :: cur')).data ++ ' ' :: x.data).length - x.length =
        (joinWords (y :: cur')).data.length + 1 := by
      rw [show x.length = x.data.length from rfl]
      simp only [List.length_append, List.length_cons]
      omega
    rw [hlen]
    have htake : ((joinWords (y :: cur')).data ++ ' ' :: x.data).take
        ((joinWords (y :: cur')).data.length + 1) =
        (joinWords (y :: cur')).data ++ [' '] := by
      rw [List.take_append_eq_append_take]
      congr 1
      · exact List.take_of_length_le (by omega)
      · rw [Nat.add_sub_cancel_left]
        rfl
    rw [htake]
    unfold pyStrip
    rw [show (String.mk ((joinWords (y :: cur')).data ++ [' '])).data =
        (joinWords (y :: cur')).data ++ [' '] from rfl]
    rw [← hdata] at hlast
    rw [trim_concat_space _ c cs0 hdata hhd hlast]

/-- Splitting a join of good words on spaces recovers the words. -/
theorem wordsOf_joinWords (g : List String) (hg : ∀ x ∈ g, goodWord x) :
    wordsOf (joinWords g) = g := by
  induction g with
  | nil => rfl
  | cons x g ih =>
    have hx := hg x (List.mem_cons_self ..)
    have hxchars : ∀ c ∈ x.data, (c == ' ') = false := by
      intro c hc
      have hws := hx.2 c hc
      cases hcc : (c == ' ') with
      | false => rfl
      | true =>
        rw [beq_iff_eq] at hcc
        subst hcc
        rw [show (' '.isWhitespace) = true from by decide] at hws
        exact absurd hws (by simp)
    cases g with
    | nil =>
      unfold wordsOf
      rw [show (joinWords [x]) = x from rfl]
      rw [splitOnPred_noSplit _ x.data hxchars]
      simp only [List.map_cons, List.map_nil, strMk_data]
      have hxne : (x != "") = true := bne_iff_ne.mpr hx.1
      simp [List.filter_cons, hxne]
    | cons y g' =>
      unfold wordsOf
      rw [joinWords_cons_data x (y :: g') (by simp)]
      rw [splitOnPred_append _ ' ' (by decide) x.data _ hxchars]
      simp only [List.map_cons, strMk_data]
      rw [List.filter_cons]
      have hxne : (x != "") = true := bne_iff_ne.mpr hx.1
      rw [if_pos hxne]
      congr 1
      exact ih (fun z hz => hg z (List.mem_cons_of_mem _ hz))

/-- Re-splitting the nonempty joined lines of a chunk list recovers the
concatenation of the chunks. -/
theorem chunks_recover (gsl : List (List String))
    (h : ∀ g ∈ gsl, ∀ x ∈ g, goodWord x) :
    (((gsl.map joinWords).filter (fun l => l != "")).map wordsOf).flatten = gsl.flatten := by
  induction gsl with
  | nil => rfl
  | cons g gsl ih =>
    have ih' := ih (fun g' hg' => h g' (List.mem_cons_of_mem _ hg'))
    have hgood := h g (List.mem_cons_self ..)
    rw [List.map_cons, List.filter_cons]
    by_cases hne : g = []
    · subst hne
      rw [show joinWords ([] : List String) = "" from rfl]
      simp only [bne_self_eq_false, Bool.false_eq_true, if_false]
      rw [ih']
      simp
    · have hjw : (joinWords g != "") = true :=
        bne_iff_ne.mpr (joinWords_ne_empty g hne hgood)
      rw [if_pos hjw, List.map_cons, List.flatten_cons, wordsOf_joinWords g hgood, ih']
      simp

/-- One `_wrap_title` iteration, on the abstract chunk state: either the
word joins the current line, or the current line is finalized (the strip
of the slice recovering it exactly) and the word opens a new line. -/
theorem wrapStep_eval (m : String → Nat) (w : Nat) (gs : List (List String))
    (cur : List String) (word : String)
    (hcur : ∀ y ∈ cur, goodWord y) (hword : goodWord word) :
    wrapStep m w (gs.map joinWords ++ [joinWords cur], cur) word =
      if w < m (joinWords (cur ++ [word])) + margin then
        ((gs ++ [cur]).map joinWords ++ [joinWords [word]], [word])
      else (gs.map joinWords ++ [joinWords (cur ++ [word])], cur ++ [word]) := by
  simp only [wrapStep]
  simp only [List.dropLast_concat]
  by_cases h : w < m (joinWords (cur ++ [word])) + margin
  · rw [if_pos h, if_pos h, strip_slice cur word hcur hword, List.map_append,
      show joinWords [word] = word from rfl]
    simp [List.append_assoc]
  · rw [if_neg h, if_neg h]

/-- The invariant of the `_wrap_title` loop: the line list is the joined
image of a chunk list plus the current chunk, the chunks concatenate to
the words consumed so far, chunk words stay good, and every chunk is
empty, a singleton, or within budget. -/
theorem wrap_main (m : String → Nat) (w : Nat) :
    ∀ (ws : List String) (gs : List (List String)) (cur : List String),
    (∀ x ∈ ws, goodWord x) →
    (∀ g ∈ gs, ∀ x ∈ g, goodWord x) →
    (∀ x ∈ cur, goodWord x) →
    (∀ g ∈ gs, chunkOK m w g) →
    chunkOK m w cur →
    ∃ (gs' : List (List String)) (cur' : List String),
      ws.foldl (wrapStep m w) (gs.map joinWords ++ [joinWords cur], cur) =
        (gs'.map joinWords ++ [joinWords cur'], cur') ∧
      gs'.flatten ++ cur' = gs.flatten ++ cur ++ ws ∧
      (∀ g ∈ gs', ∀ x ∈ g, goodWord x) ∧
      (∀ x ∈ cur', goodWord x) ∧
      (∀ g ∈ gs', chunkOK m w g) ∧
      chunkOK m w cur' := by
  intro ws
  induction ws with
  | nil =>
    intro gs cur hws hgs hcur hgso hco
    exact ⟨gs, cur, rfl, by simp, hgs, hcur, hgso, hco⟩
  | cons word ws ih =>
    intro gs cur hws hgs hcur hgso hco
    have hword : goodWord word := hws word (List.mem_cons_self ..)
    rw [List.foldl_cons, wrapStep_eval m w gs cur word hcur hword]
    by_cases h : w < m (joinWords (cur ++ [word])) + margin
    · rw [if_pos h]
      obtain ⟨gs', cur', heq, hjoin, h1, h2, h3, h4⟩ :=
        ih (gs ++ [cur]) [word]
          (fun x hx => hws x (List.mem_cons_of_mem _ hx))
          (fun g hg => by
            rcases List.mem_append.mp hg with hg | hg
            · exact hgs g hg
            · rw [List.mem_singleton] at hg
              subst hg
              exact hcur)
          (fun x hx => by
            rw [List.mem_singleton] at hx
            subst hx
            exact hword)
          (fun g hg => by
            rcases List.mem_append.mp hg with hg | hg
            · exact hgso g hg
            · rw [List.mem_singleton] at hg
              subst hg
              exact hco)
          (Or.inr (Or.inl ⟨word, rfl⟩))
      refine ⟨gs', cur', heq, ?_, h1, h2, h3, h4⟩
      rw [hjoin]
      simp [List.flatten_append, List.append_assoc]
    · rw [if_neg h]
      obtain ⟨gs', cur', heq, hjoin, h1, h2, h3, h4⟩ :=
        ih gs (cur ++ [word])
          (fun x hx => hws x (List.mem_cons_of_mem _ hx))
          hgs
          (fun x hx => by
            rcases List.mem_append.mp hx with hx | hx
            · exact hcur x hx
            · rw [List.mem_singleton] at hx
              subst hx
              exact hword)
          hgso
          (Or.inr (Or.inr (Nat.not_lt.mp h)))
      refine ⟨gs', cur', heq, ?_, h1, h2, h3, h4⟩
      rw [hjoin]
      simp [List.append_assoc]

/-- Claim C6: every line produced by `_wrap_title` either fits the width
budget (measured width plus margin at most the budget) or is a single
word of the whitespace-split title — a lone overlong word is never
broken mid-word. -/
theorem wrap_title_width_bound (m : String → Nat) (w : Nat) (title : String) :
    ∀ line ∈ wrapTitle m w title, m line + margin ≤ w ∨ line ∈ pySplit title := by
  obtain ⟨gs', cur', heq, hjoin, hgood', hcgood, hok, hcok⟩ :=
    wrap_main m w (pySplit title) [] [] (good_pySplit title)
      (by intro g hg; cases hg) (by intro x hx; cases hx)
      (by intro g hg; cases hg) (Or.inl rfl)
  intro line hline
  unfold wrapTitle wrapWords at hline
  rw [show (([""], []) : List String × List String) =
      ((([] : List (List String)).map joinWords ++ [joinWords []], []) :
        List String × List String) from rfl, heq] at hline
  rw [List.mem_filter] at hline
  obtain ⟨hmem, hne⟩ := hline
  replace hmem : line ∈ gs'.map joinWords ++ [joinWords cur'] := hmem
  have hne' : line ≠ "" := bne_iff_ne.mp hne
  have hjoin' : gs'.flatten ++ cur' = pySplit title := by simpa using hjoin
  rcases List.mem_append.mp hmem with hmem | hmem
  · obtain ⟨g, hg, rfl⟩ := List.mem_map.mp hmem
    rcases hok g hg with rfl | ⟨x, rfl⟩ | hle
    · exact absurd rfl hne'
    · right
      have hx : x ∈ gs'.flatten := List.mem_flatten.mpr ⟨[x], hg, List.mem_singleton.mpr rfl⟩
      rw [show joinWords [x] = x from rfl, ← hjoin']
      exact List.mem_append_left _ hx
    · exact Or.inl hle
  · rw [List.mem_singleton] at hmem
    subst hmem
    rcases hcok with h0 | ⟨x, h0⟩ | hle
    · subst h0
      exact absurd rfl hne'
    · subst h0
      right
      rw [show joinWords [x] = x from rfl, ← hjoin']
      exact List.mem_append_right _ (List.mem_singleton.mpr rfl)
    · exact Or.inl hle

/-- Claim C10: splitting each `_wrap_title` output line back into its
space-separated words and concatenating, in order, yields exactly the
whitespace-split word sequence of the title — the greedy wrap never
drops, duplicates or reorders a word. -/
theorem wrap_title_word_preservation (m : String → Nat) (w : Nat) (title : String) :
    ((wrapTitle m w title).map wordsOf).flatten = pySplit title := by
  obtain ⟨gs', cur', heq, hjoin, hgood', hcgood, hok, hcok⟩ :=
    wrap_main m w (pySplit title) [] [] (good_pySplit title)
      (by intro g hg; cases hg) (by intro x hx; cases hx)
      (by intro g hg; cases hg) (Or.inl rfl)
  unfold wrapTitle wrapWords
  rw [show (([""], []) : List String × List String) =
      ((([] : List (List String)).map joinWords ++ [joinWords []], []) :
        List String × List String) from rfl, heq]
  show (((gs'.map joinWords ++ [joinWords cur']).filter (fun l => l != "")).map
      wordsOf).flatten = pySplit title
  have hall : ∀ g ∈ gs' ++ [cur'], ∀ x ∈ g, goodWord x := by
    intro g hg x hx
    rcases List.mem_append.mp hg with h | h
    · exact hgood' g h x hx
    · rw [List.mem_singleton] at h
      subst h
      exact hcgood x hx
  have hmap : (gs'.map joinWords ++ [joinWords cur'] : List String) =
      (gs' ++ [cur']).map joinWords := by
    rw [List.map_append]
    rfl
  rw [hmap, chunks_recover (gs' ++ [cur']) hall, List.flatten_append]
  simpa using hjoin

/-- Witness for C6: with width budget 0 the single word `"hello"` still
comes out alone on its line, overlong but unbroken. -/
theorem wrap_title_width_bound_witness :
    String.length "hello" + margin ≤ 0 ∨ "hello" ∈ pySplit "hello" :=
  wrap_title_width_bound String.length 0 "hello" "hello" (by decide)
